import Mathlib

/-!
Verification development for the `brutal` HTTP load tester (`main.go`).

Shallow embedding conventions:
* `time.Duration` values (nanosecond counts produced by `time.Since`) are
  modelled as `Nat`; Go's integer division of durations agrees with `Nat`
  division on non-negative values.
* Go `error` values are modelled as `Option String` (`none` = nil).
* Go maps with `int` keys and zero-default lookup (`map[int]int`,
  `map[int]time.Duration`) are modelled as functions `Nat → Nat` defaulting
  to `0`, matching Go's lookup of a missing key.
* `float64` (only `RequestsPerSec`) is modelled as `Rat`; the only fact we
  prove about it is exact (`= 0`), where `float64` and `Rat` agree.
* `sort.Slice(responseTimes, <)` is modelled by `List.insertionSort (· ≤ ·)`:
  any ascending sort of a list of durations yields the same value list.
-/

/-- Go struct `Result` (main.go:38-43): outcome of one request. -/
structure Result where
  statusCode : Nat
  responseTime : Nat
  contentSize : Nat
  error : Option String
deriving DecidableEq, Repr

/-- Go struct `Stats` (main.go:46-59): the final aggregated statistics. -/
structure Stats where
  totalRequests : Nat
  successfulReqs : Nat
  failedReqs : Nat
  totalTime : Nat
  minResponseTime : Nat
  maxResponseTime : Nat
  avgResponseTime : Nat
  responseTimes : List Nat
  statusCodes : Nat → Nat
  totalBytes : Nat
  requestsPerSec : Rat
  percentiles : Nat → Nat

/-- Accumulator for the single result loop of `calculateStats`
(main.go:288-309): the mutable locals and `stats` fields written
inside the loop. -/
structure StatsAcc where
  successfulReqs : Nat := 0
  failedReqs : Nat := 0
  totalBytes : Nat := 0
  statusCodes : Nat → Nat := fun _ => 0
  responseTimes : List Nat := []
  totalResponseTime : Nat := 0
  minResponseTime : Nat := 0
  maxResponseTime : Nat := 0

/-- One iteration of the `for _, result := range lt.results` loop body of
`calculateStats` (main.go:291-309), field for field. -/
def statsStep (a : StatsAcc) (r : Result) : StatsAcc :=
  { successfulReqs := if r.error.isNone then a.successfulReqs + 1 else a.successfulReqs
    failedReqs := if r.error.isNone then a.failedReqs else a.failedReqs + 1
    totalBytes := if r.error.isNone then a.totalBytes + r.contentSize else a.totalBytes
    statusCodes := fun c => if c = r.statusCode then a.statusCodes c + 1 else a.statusCodes c
    responseTimes := a.responseTimes ++ [r.responseTime]
    totalResponseTime := a.totalResponseTime + r.responseTime
    minResponseTime :=
      if a.minResponseTime = 0 ∨ r.responseTime < a.minResponseTime then r.responseTime
      else a.minResponseTime
    maxResponseTime :=
      if a.maxResponseTime < r.responseTime then r.responseTime else a.maxResponseTime }

/-- The ascending sort applied to the collected latencies
(main.go:317-319, `sort.Slice` with `<`). -/
def sortLatencies (l : List Nat) : List Nat := List.insertionSort (· ≤ ·) l

/-- The sorted latency list `calculateStats` indexes into, as a function of
the result sink. -/
def sortedLatencies (results : List Result) : List Nat :=
  sortLatencies (results.map (·.responseTime))

/-- The 0-based index `len(responseTimes)*p/100` used for percentile `p`
(main.go:322-325). -/
def percIndex (n p : Nat) : Nat := n * p / 100

/-- Go method `calculateStats` (main.go:281-330): reduce the result sink and
the measured wall-clock duration into a `Stats` record.  `totalTime` is in
nanoseconds.  Note the source assigns `stats.ResponseTimes = responseTimes`
and then sorts that same slice in place, so the stored field is the sorted
slice. -/
def calculateStats (results : List Result) (totalTime : Nat) : Stats :=
  let a := results.foldl statsStep {}
  let n := a.responseTimes.length
  let sorted := sortLatencies a.responseTimes
  { totalRequests := results.length
    successfulReqs := a.successfulReqs
    failedReqs := a.failedReqs
    totalTime := totalTime
    minResponseTime := a.minResponseTime
    maxResponseTime := a.maxResponseTime
    avgResponseTime := if 0 < n then a.totalResponseTime / n else 0
    responseTimes := if 0 < n then sorted else []
    statusCodes := a.statusCodes
    totalBytes := a.totalBytes
    requestsPerSec :=
      if 0 < n then (results.length : Rat) * 1000000000 / (totalTime : Rat) else 0
    percentiles :=
      if 0 < n then
        fun p =>
          if p = 50 then sorted.getD (percIndex n 50) 0
          else if p = 90 then sorted.getD (percIndex n 90) 0
          else if p = 95 then sorted.getD (percIndex n 95) 0
          else if p = 99 then sorted.getD (percIndex n 99) 0
          else 0
      else fun _ => 0 }

/-- The min-tracking recurrence of the loop (main.go:303-305), over the bare
latency list. -/
def minStep (m x : Nat) : Nat := if m = 0 ∨ x < m then x else m

/-- The max-tracking recurrence of the loop (main.go:306-308), over the bare
latency list. -/
def maxStep (m x : Nat) : Nat := if m < x then x else m

/-- Modelled from the spec's words (claim C1) for comparison with the code:
nearest-rank selection — `rank = ceil(p/100 * count)`, 1-indexed, clamped
to `[1, count]`, element at 0-indexed `rank - 1` of the ascending-sorted
latencies. -/
def nearestRankSelect (lat : List Nat) (p : Nat) : Nat :=
  let rank := Nat.min (Nat.max ((p * lat.length + 99) / 100) 1) lat.length
  (sortLatencies lat).getD (rank - 1) 0

/-- The floor-rank selection the code performs: element at 0-indexed
`count*p/100` of the ascending-sorted latencies (main.go:322-325). -/
def floorRankSelect (lat : List Nat) (p : Nat) : Nat :=
  (sortLatencies lat).getD (percIndex lat.length p) 0

/-! ### The dispatcher (`RunWithTUI`, main.go:205-278).

The launch loop sends one token into a buffered channel of capacity
`Concurrent` before starting each goroutine (main.go:219-222); a send on a
buffered channel succeeds exactly when fewer than `Concurrent` tokens are
outstanding, and blocks otherwise.  Each goroutine appends its `Result` to
`lt.results` under `lt.mu` and afterwards releases its token via the
deferred receive (main.go:225, run after the body).  We model one run as a
transition system over the interleavings of these atomic actions; the
per-task `Result` values are prescribed up front by the list `toLaunch`
(the network's answers, in launch order). -/

structure DispatchState where
  toLaunch : List Result
  running : List Result
  releasable : Nat
  sink : List Result
  completed : Nat
deriving DecidableEq, Repr

/-- Number of semaphore tokens currently outstanding: tasks whose launch
sent a token and whose deferred receive has not yet run. -/
def heldPermits (s : DispatchState) : Nat := s.running.length + s.releasable

/-- One atomic action of `RunWithTUI` with concurrency limit `C`:
launch a task (token send, main.go:221, enabled only while fewer than `C`
tokens are outstanding), finish a running task (append its Result to the
sink and bump the completed counter, main.go:248-255), or run a finished
task's deferred token release (main.go:225). -/
inductive DispatchStep (C : Nat) : DispatchState → DispatchState → Prop where
  | launch (s : DispatchState) (r : Result) (rest : List Result) :
      s.toLaunch = r :: rest → heldPermits s < C →
      DispatchStep C s { s with toLaunch := rest, running := s.running ++ [r] }
  | finish (s : DispatchState) (r : Result) :
      r ∈ s.running →
      DispatchStep C s { s with running := s.running.erase r,
                                sink := s.sink ++ [r],
                                completed := s.completed + 1,
                                releasable := s.releasable + 1 }
  | release (s : DispatchState) :
      0 < s.releasable →
      DispatchStep C s { s with releasable := s.releasable - 1 }

/-- States reachable by interleaving dispatcher actions. -/
def DispatchReachable (C : Nat) (s₀ s : DispatchState) : Prop :=
  Relation.ReflTransGen (DispatchStep C) s₀ s

/-- The state at the top of `RunWithTUI`: nothing launched, the sink empty.
`outcomes` lists the Result each of the `Config.Requests` tasks will
produce, in launch order. -/
def initState (outcomes : List Result) : DispatchState :=
  { toLaunch := outcomes, running := [], releasable := 0, sink := [], completed := 0 }

/-- The join barrier `wg.Wait()` (main.go:266) has been passed: every task
was launched, ran to completion, and released its token. -/
def RunFinished (s : DispatchState) : Prop :=
  s.toLaunch = [] ∧ s.running = [] ∧ s.releasable = 0

/-! ### The request executor (`makeRequest`, main.go:156-202).

The network's behaviour on one request is an oracle value: which phase
fails (request construction, `httpClient.Do`, reading the body) and how
long each completed phase took, plus the response status/size when one
arrived.  `makeRequest` maps each oracle value to the `Result` the code
builds on that path. -/

inductive ReqOutcome where
  | constructErr (buildTime : Nat)
  | sendErr (buildTime sendTime : Nat)
  | bodyReadErr (status : Nat) (buildTime sendTime readTime : Nat)
  | success (status size : Nat) (buildTime sendTime readTime : Nat)
deriving DecidableEq, Repr

/-- Whether the outcome is one of the three failure paths. -/
def ReqOutcome.isFailure : ReqOutcome → Bool
  | .constructErr _ => true
  | .sendErr _ _ => true
  | .bodyReadErr _ _ _ _ => true
  | .success _ _ _ _ _ => false

/-- Go method `makeRequest` (main.go:156-202), path by path.  On a
construction error it returns early with `time.Since(start)` (main.go:166);
on the other three paths `responseTime` is the `time.Since(start)` taken
immediately after `httpClient.Do` returns (main.go:180), before the body is
read; the zero values of unset `Result` fields are status `0` and size `0`. -/
def makeRequest : ReqOutcome → Result
  | .constructErr t1 =>
      { statusCode := 0, responseTime := t1, contentSize := 0,
        error := some "invalid request" }
  | .sendErr t1 t2 =>
      { statusCode := 0, responseTime := t1 + t2, contentSize := 0,
        error := some "send failed" }
  | .bodyReadErr st t1 t2 _t3 =>
      { statusCode := st, responseTime := t1 + t2, contentSize := 0,
        error := some "body read failed" }
  | .success st sz t1 t2 _t3 =>
      { statusCode := st, responseTime := t1 + t2, contentSize := sz, error := none }

/-- Modelled from the spec's words (claim C9): the wall-clock time elapsed
from the start of `makeRequest` up to the point where the outcome's failing
phase ends (all completed phases plus the failing one). -/
def elapsedAtFailure : ReqOutcome → Nat
  | .constructErr t1 => t1
  | .sendErr t1 t2 => t1 + t2
  | .bodyReadErr _ t1 t2 t3 => t1 + t2 + t3
  | .success _ _ t1 t2 t3 => t1 + t2 + t3

/-- The status code the failure paths record: `0` unless response headers
were received and only the body read failed. -/
def failStatus : ReqOutcome → Nat
  | .constructErr _ => 0
  | .sendErr _ _ => 0
  | .bodyReadErr st _ _ _ => st
  | .success st _ _ _ _ => st

/-- The wall-clock time elapsed up to the end of the HTTP exchange
(construction plus `httpClient.Do`); any body-read time is excluded. -/
def elapsedThroughSend : ReqOutcome → Nat
  | .constructErr t1 => t1
  | .sendErr t1 t2 => t1 + t2
  | .bodyReadErr _ t1 t2 _ => t1 + t2
  | .success _ _ t1 t2 _ => t1 + t2

/-! ### Projection lemmas: each accumulator field of the loop is a simple
function of the result list. -/

theorem foldl_statsStep_responseTimes (rs : List Result) (a : StatsAcc) :
    (rs.foldl statsStep a).responseTimes = a.responseTimes ++ rs.map (·.responseTime) := by
  induction rs generalizing a with
  | nil => simp
  | cons r rs ih => simp [statsStep, ih]

theorem foldl_statsStep_successful (rs : List Result) (a : StatsAcc) :
    (rs.foldl statsStep a).successfulReqs =
      a.successfulReqs + rs.countP (fun r => r.error.isNone) := by
  induction rs generalizing a with
  | nil => simp
  | cons r rs ih =>
    simp only [List.foldl_cons, ih, List.countP_cons]
    by_cases h : r.error.isNone <;> simp [statsStep, h] <;> omega

theorem foldl_statsStep_failed (rs : List Result) (a : StatsAcc) :
    (rs.foldl statsStep a).failedReqs =
      a.failedReqs + rs.countP (fun r => r.error.isSome) := by
  induction rs generalizing a with
  | nil => simp
  | cons r rs ih =>
    simp only [List.foldl_cons, ih, List.countP_cons]
    rcases h : r.error with _ | e <;> simp [statsStep, h] <;> omega

theorem foldl_statsStep_totalRT (rs : List Result) (a : StatsAcc) :
    (rs.foldl statsStep a).totalResponseTime =
      a.totalResponseTime + (rs.map (·.responseTime)).sum := by
  induction rs generalizing a with
  | nil => simp
  | cons r rs ih => simp [statsStep, ih]; omega

theorem foldl_statsStep_min (rs : List Result) (a : StatsAcc) :
    (rs.foldl statsStep a).minResponseTime =
      (rs.map (·.responseTime)).foldl minStep a.minResponseTime := by
  induction rs generalizing a with
  | nil => simp
  | cons r rs ih => simp [statsStep, minStep, ih]

theorem foldl_statsStep_max (rs : List Result) (a : StatsAcc) :
    (rs.foldl statsStep a).maxResponseTime =
      (rs.map (·.responseTime)).foldl maxStep a.maxResponseTime := by
  induction rs generalizing a with
  | nil => simp
  | cons r rs ih => simp [statsStep, maxStep, ih]

/-! ### Behaviour of the min/max recurrences on bare latency lists. -/

theorem foldl_minStep_of_pos (l : List Nat) (m : Nat) (hm : 0 < m)
    (hl : ∀ x ∈ l, 0 < x) :
    (l.foldl minStep m = m ∨ l.foldl minStep m ∈ l) ∧
      l.foldl minStep m ≤ m ∧ (∀ x ∈ l, l.foldl minStep m ≤ x) ∧
      0 < l.foldl minStep m := by
  induction l generalizing m with
  | nil => exact ⟨Or.inl rfl, Nat.le_refl m, by simp, hm⟩
  | cons x l ih =>
    have hx : 0 < x := hl x (by simp)
    have hm' : 0 < minStep m x := by
      unfold minStep; split <;> assumption
    have hl' : ∀ y ∈ l, 0 < y := fun y hy => hl y (by simp [hy])
    obtain ⟨hmem, hle, hall, hp⟩ := ih (minStep m x) hm' hl'
    have hstep_le_m : minStep m x ≤ m := by
      by_cases h : m = 0 ∨ x < m
      · rw [minStep, if_pos h]
        rcases h with h | h <;> omega
      · rw [minStep, if_neg h]
    have hstep_le_x : minStep m x ≤ x := by
      by_cases h : m = 0 ∨ x < m
      · rw [minStep, if_pos h]
      · rw [minStep, if_neg h]
        push_neg at h
        omega
    refine ⟨?_, ?_, ?_, ?_⟩
    · rcases hmem with h | h
      · rw [List.foldl_cons, h]
        by_cases hc : m = 0 ∨ x < m
        · rw [minStep, if_pos hc]
          exact Or.inr (by simp)
        · rw [minStep, if_neg hc]
          exact Or.inl rfl
      · exact Or.inr (by simp [h])
    · calc (x :: l).foldl minStep m = l.foldl minStep (minStep m x) := by simp
        _ ≤ minStep m x := hle
        _ ≤ m := hstep_le_m
    · intro y hy
      rcases List.mem_cons.1 hy with rfl | hy
      · calc (y :: l).foldl minStep m = l.foldl minStep (minStep m y) := by simp
          _ ≤ minStep m y := hle
          _ ≤ y := hstep_le_x
      · simpa using hall y hy
    · simpa using hp

theorem foldl_maxStep_ge (l : List Nat) (m : Nat) :
    (l.foldl maxStep m = m ∨ l.foldl maxStep m ∈ l) ∧
      m ≤ l.foldl maxStep m ∧ (∀ x ∈ l, x ≤ l.foldl maxStep m) := by
  induction l generalizing m with
  | nil => exact ⟨Or.inl rfl, Nat.le_refl m, by simp⟩
  | cons x l ih =>
    obtain ⟨hmem, hge, hall⟩ := ih (maxStep m x)
    have hstep_ge_m : m ≤ maxStep m x := by
      by_cases h : m < x
      · rw [maxStep, if_pos h]; omega
      · rw [maxStep, if_neg h]
    have hstep_ge_x : x ≤ maxStep m x := by
      by_cases h : m < x
      · rw [maxStep, if_pos h]
      · rw [maxStep, if_neg h]; omega
    refine ⟨?_, ?_, ?_⟩
    · rcases hmem with h | h
      · rw [List.foldl_cons, h]
        by_cases hc : m < x
        · rw [maxStep, if_pos hc]
          exact Or.inr (by simp)
        · rw [maxStep, if_neg hc]
          exact Or.inl rfl
      · exact Or.inr (by simp [h])
    · calc m ≤ maxStep m x := hstep_ge_m
        _ ≤ l.foldl maxStep (maxStep m x) := hge
        _ = (x :: l).foldl maxStep m := by simp
    · intro y hy
      rcases List.mem_cons.1 hy with rfl | hy
      · calc y ≤ maxStep m y := hstep_ge_x
          _ ≤ l.foldl maxStep (maxStep m y) := hge
          _ = (y :: l).foldl maxStep m := by simp
      · simpa using hall y hy

theorem sum_ge_length_mul (l : List Nat) (m : Nat) (h : ∀ x ∈ l, m ≤ x) :
    l.length * m ≤ l.sum := by
  induction l with
  | nil => simp
  | cons x l ih =>
    have hx := h x (by simp)
    have := ih (fun y hy => h y (by simp [hy]))
    simp only [List.length_cons, List.sum_cons, Nat.succ_mul]
    omega

theorem sum_le_length_mul (l : List Nat) (m : Nat) (h : ∀ x ∈ l, x ≤ m) :
    l.sum ≤ l.length * m := by
  induction l with
  | nil => simp
  | cons x l ih =>
    have hx := h x (by simp)
    have := ih (fun y hy => h y (by simp [hy]))
    simp only [List.length_cons, List.sum_cons, Nat.succ_mul]
    omega

/-! ### Field lemmas for `calculateStats`. -/

theorem calculateStats_min (rs : List Result) (t : Nat) :
    (calculateStats rs t).minResponseTime = (rs.map (·.responseTime)).foldl minStep 0 := by
  simp [calculateStats, foldl_statsStep_min]

theorem calculateStats_max (rs : List Result) (t : Nat) :
    (calculateStats rs t).maxResponseTime = (rs.map (·.responseTime)).foldl maxStep 0 := by
  simp [calculateStats, foldl_statsStep_max]

theorem calculateStats_avg (rs : List Result) (t : Nat) (hne : rs ≠ []) :
    (calculateStats rs t).avgResponseTime = (rs.map (·.responseTime)).sum / rs.length := by
  have h0 : 0 < rs.length := List.length_pos.2 hne
  simp [calculateStats, foldl_statsStep_totalRT, foldl_statsStep_responseTimes, h0]

/-- Spec claim C2, corrected: over any non-empty result sink whose latencies
are all positive (the measured `time.Since` values), the final `Stats`
satisfies `min ≤ avg ≤ max`, and the stored min/max are exactly the minimum
and maximum of all latencies, successes and failures alike. -/
theorem C2_min_avg_max (rs : List Result) (t : Nat) (hne : rs ≠ [])
    (hpos : ∀ r ∈ rs, 0 < r.responseTime) :
    (calculateStats rs t).minResponseTime ≤ (calculateStats rs t).avgResponseTime ∧
    (calculateStats rs t).avgResponseTime ≤ (calculateStats rs t).maxResponseTime ∧
    (calculateStats rs t).minResponseTime ∈ rs.map (·.responseTime) ∧
    (calculateStats rs t).maxResponseTime ∈ rs.map (·.responseTime) ∧
    ∀ r ∈ rs, (calculateStats rs t).minResponseTime ≤ r.responseTime ∧
      r.responseTime ≤ (calculateStats rs t).maxResponseTime := by
  have h0 : 0 < rs.length := List.length_pos.2 hne
  have hlen : (rs.map (·.responseTime)).length = rs.length := List.length_map _ _
  have hlpos : ∀ x ∈ rs.map (·.responseTime), 0 < x := by
    intro x hx
    obtain ⟨r, hr, rfl⟩ := List.mem_map.1 hx
    exact hpos r hr
  have hlne : rs.map (·.responseTime) ≠ [] := by
    intro h
    exact hne (List.map_eq_nil_iff.1 h)
  obtain ⟨x, l', hcons⟩ := List.exists_cons_of_ne_nil hlne
  have hfirst : minStep 0 x = x := by rw [minStep, if_pos (Or.inl rfl)]
  have hminprops :
      ((rs.map (·.responseTime)).foldl minStep 0 ∈ rs.map (·.responseTime)) ∧
      (∀ y ∈ rs.map (·.responseTime), (rs.map (·.responseTime)).foldl minStep 0 ≤ y) := by
    rw [hcons]
    have hx : 0 < x := hlpos x (by rw [hcons]; simp)
    have hl' : ∀ y ∈ l', 0 < y := fun y hy => hlpos y (by rw [hcons]; simp [hy])
    obtain ⟨hmem, hle, hall, _⟩ := foldl_minStep_of_pos l' x hx hl'
    have heq : (x :: l').foldl minStep 0 = l'.foldl minStep x := by
      simp [hfirst]
    constructor
    · rw [heq]
      rcases hmem with h | h
      · simp [h]
      · simp [h]
    · intro y hy
      rw [heq]
      rcases List.mem_cons.1 hy with rfl | hy
      · exact hle
      · exact hall y hy
  have hmaxfull := foldl_maxStep_ge (rs.map (·.responseTime)) 0
  have hmaxmem' := hmaxfull.1
  have hmaxall := hmaxfull.2.2
  have hminmem := hminprops.1
  have hminall := hminprops.2
  have hmaxmem : (rs.map (·.responseTime)).foldl maxStep 0 ∈ rs.map (·.responseTime) := by
    rcases hmaxmem' with h | h
    · exfalso
      have hx : 0 < x := hlpos x (by rw [hcons]; simp)
      have hxle := hmaxall x (by rw [hcons]; simp)
      omega
    · exact h
  have hminle : (calculateStats rs t).minResponseTime ≤ (calculateStats rs t).avgResponseTime := by
    rw [calculateStats_min, calculateStats_avg rs t hne]
    rw [Nat.le_div_iff_mul_le h0]
    calc (rs.map (·.responseTime)).foldl minStep 0 * rs.length
        = rs.length * (rs.map (·.responseTime)).foldl minStep 0 := Nat.mul_comm _ _
      _ = (rs.map (·.responseTime)).length * (rs.map (·.responseTime)).foldl minStep 0 := by
          rw [hlen]
      _ ≤ (rs.map (·.responseTime)).sum := sum_ge_length_mul _ _ hminall
  have hmaxge : (calculateStats rs t).avgResponseTime ≤ (calculateStats rs t).maxResponseTime := by
    rw [calculateStats_max, calculateStats_avg rs t hne]
    calc (rs.map (·.responseTime)).sum / rs.length
        ≤ (rs.map (·.responseTime)).length * (rs.map (·.responseTime)).foldl maxStep 0 /
            rs.length := Nat.div_le_div_right (sum_le_length_mul _ _ hmaxall)
      _ = rs.length * (rs.map (·.responseTime)).foldl maxStep 0 / rs.length := by rw [hlen]
      _ = (rs.map (·.responseTime)).foldl maxStep 0 := Nat.mul_div_cancel_left _ h0
  refine ⟨hminle, hmaxge, ?_, ?_, ?_⟩
  · rw [calculateStats_min]; exact hminmem
  · rw [calculateStats_max]; exact hmaxmem
  · intro r hr
    constructor
    · rw [calculateStats_min]
      exact hminall _ (List.mem_map.2 ⟨r, hr, rfl⟩)
    · rw [calculateStats_max]
      exact hmaxall _ (List.mem_map.2 ⟨r, hr, rfl⟩)

/-- C2 counterexample: with latencies `[0, 5]` the `== 0` sentinel used for
min tracking (main.go:303) resets the minimum, so the final Stats has
`MinResponseTime = 5 > AvgResponseTime = 2`: the claim fails as stated for a
result whose measured latency is zero. -/
theorem C2_min_avg_max_counterexample :
    ¬ ((calculateStats [⟨200, 0, 0, none⟩, ⟨200, 5, 0, none⟩] 1000).minResponseTime ≤
        (calculateStats [⟨200, 0, 0, none⟩, ⟨200, 5, 0, none⟩] 1000).avgResponseTime) := by
  decide

/-- Witness for `C2_min_avg_max` at a concrete two-element sink. -/
theorem C2_min_avg_max_witness :
    (calculateStats [⟨200, 5, 0, none⟩, ⟨500, 3, 0, some "eof"⟩] 1000).minResponseTime ≤
      (calculateStats [⟨200, 5, 0, none⟩, ⟨500, 3, 0, some "eof"⟩] 1000).avgResponseTime ∧
    (calculateStats [⟨200, 5, 0, none⟩, ⟨500, 3, 0, some "eof"⟩] 1000).avgResponseTime ≤
      (calculateStats [⟨200, 5, 0, none⟩, ⟨500, 3, 0, some "eof"⟩] 1000).maxResponseTime ∧
    (calculateStats [⟨200, 5, 0, none⟩, ⟨500, 3, 0, some "eof"⟩] 1000).minResponseTime ∈
      ([⟨200, 5, 0, none⟩, ⟨500, 3, 0, some "eof"⟩] : List Result).map (·.responseTime) ∧
    (calculateStats [⟨200, 5, 0, none⟩, ⟨500, 3, 0, some "eof"⟩] 1000).maxResponseTime ∈
      ([⟨200, 5, 0, none⟩, ⟨500, 3, 0, some "eof"⟩] : List Result).map (·.responseTime) ∧
    ∀ r ∈ ([⟨200, 5, 0, none⟩, ⟨500, 3, 0, some "eof"⟩] : List Result),
      (calculateStats [⟨200, 5, 0, none⟩, ⟨500, 3, 0, some "eof"⟩] 1000).minResponseTime ≤
        r.responseTime ∧
      r.responseTime ≤
        (calculateStats [⟨200, 5, 0, none⟩, ⟨500, 3, 0, some "eof"⟩] 1000).maxResponseTime :=
  C2_min_avg_max [⟨200, 5, 0, none⟩, ⟨500, 3, 0, some "eof"⟩] 1000 (by simp)
    (by intro r hr; fin_cases hr <;> decide)

/-- Spec claim C3: the reducer counts a Result as failed exactly when its
error field is non-nil and as successful otherwise, independent of HTTP
status code; appending an error-free Result with any status code (e.g. 500)
increments `SuccessfulReqs`. -/
theorem C3_success_is_no_error (rs : List Result) (t : Nat) :
    (calculateStats rs t).successfulReqs = rs.countP (fun r => r.error.isNone) ∧
    (calculateStats rs t).failedReqs = rs.countP (fun r => r.error.isSome) ∧
    ∀ code lat size : Nat,
      (calculateStats (rs ++ [⟨code, lat, size, none⟩]) t).successfulReqs =
        (calculateStats rs t).successfulReqs + 1 := by
  refine ⟨?_, ?_, ?_⟩
  · simp [calculateStats, foldl_statsStep_successful]
  · simp [calculateStats, foldl_statsStep_failed]
  · intro code lat size
    simp [calculateStats, List.foldl_append, statsStep, foldl_statsStep_successful]

/-- Spec claim C5: on an empty result sink the reducer returns a Stats
record whose counts, latencies, percentiles and requests-per-second are all
the zero value (the division and percentile indexing are guarded by the
`len > 0` check, main.go:311). -/
theorem C5_empty_sink (t : Nat) :
    (calculateStats [] t).totalRequests = 0 ∧
    (calculateStats [] t).successfulReqs = 0 ∧
    (calculateStats [] t).failedReqs = 0 ∧
    (calculateStats [] t).minResponseTime = 0 ∧
    (calculateStats [] t).maxResponseTime = 0 ∧
    (calculateStats [] t).avgResponseTime = 0 ∧
    (calculateStats [] t).responseTimes = [] ∧
    (calculateStats [] t).totalBytes = 0 ∧
    (∀ p, (calculateStats [] t).percentiles p = 0) ∧
    (calculateStats [] t).requestsPerSec = 0 :=
  ⟨rfl, rfl, rfl, rfl, rfl, rfl, rfl, rfl, fun _ => rfl, rfl⟩

/-! ### Percentile selection. -/

theorem length_sortLatencies (l : List Nat) : (sortLatencies l).length = l.length :=
  List.length_insertionSort _ l

theorem sorted_sortLatencies (l : List Nat) : (sortLatencies l).Sorted (· ≤ ·) :=
  List.sorted_insertionSort _ l

theorem getD_of_lt (l : List Nat) (i : Nat) (h : i < l.length) : l.getD i 0 = l[i] := by
  simp [List.getD_eq_getElem?_getD, List.getElem?_eq_getElem h]

theorem sorted_getD_mono (l : List Nat) (hs : l.Sorted (· ≤ ·)) (i j : Nat)
    (hij : i ≤ j) (hj : j < l.length) : l.getD i 0 ≤ l.getD j 0 := by
  have hi : i < l.length := Nat.lt_of_le_of_lt hij hj
  rw [getD_of_lt l i hi, getD_of_lt l j hj]
  have := hs.rel_get_of_le (a := ⟨i, hi⟩) (b := ⟨j, hj⟩) hij
  simpa using this

/-- For `0 < n` and `p < 100`, the index `n*p/100` stays below `n`. -/
theorem percIndex_lt (n p : Nat) (hn : 0 < n) (hp : p < 100) : percIndex n p < n := by
  have : n * p < n * 100 := mul_lt_mul_of_pos_left hp hn
  unfold percIndex
  omega

/-- The percentile map built by `calculateStats` on a non-empty sink reads
the sorted latency list at index `n*p/100`, for each configured `p`. -/
theorem calculateStats_percentiles (rs : List Result) (t : Nat) (hne : rs ≠ [])
    (p : Nat) (hp : p ∈ ([50, 90, 95, 99] : List Nat)) :
    (calculateStats rs t).percentiles p =
      (sortedLatencies rs).getD (percIndex rs.length p) 0 := by
  have h0 : 0 < rs.length := List.length_pos.2 hne
  fin_cases hp <;>
    simp [calculateStats, foldl_statsStep_responseTimes, sortedLatencies, h0]

/-- C1 counterexample: for the two-element latency sample `[1, 2]` the code
reports the 50th percentile as `2` (index `2*50/100 = 1`), while the
nearest-rank method of the claim selects `1` (rank `ceil(0.5*2) = 1`,
index `0`): the reducer does not use the nearest-rank method. -/
theorem C1_nearest_rank_counterexample :
    (calculateStats [⟨200, 1, 0, none⟩, ⟨200, 2, 0, none⟩] 1000).percentiles 50 = 2 ∧
    nearestRankSelect
      (([⟨200, 1, 0, none⟩, ⟨200, 2, 0, none⟩] : List Result).map (·.responseTime)) 50 = 1 ∧
    (calculateStats [⟨200, 1, 0, none⟩, ⟨200, 2, 0, none⟩] 1000).percentiles 50 ≠
      nearestRankSelect
        (([⟨200, 1, 0, none⟩, ⟨200, 2, 0, none⟩] : List Result).map (·.responseTime)) 50 := by
  refine ⟨by decide, by decide, by decide⟩

/-- Spec claim C1, corrected: for every non-empty sink the reducer computes
each configured percentile `p ∈ {50, 90, 95, 99}` by the floor-index
method — sort latencies ascending and take the element at 0-indexed
position `count*p/100` — not by the nearest-rank (ceiling) method. -/
theorem C1_floor_rank (rs : List Result) (t : Nat) (hne : rs ≠ [])
    (p : Nat) (hp : p ∈ ([50, 90, 95, 99] : List Nat)) :
    (calculateStats rs t).percentiles p =
      floorRankSelect (rs.map (·.responseTime)) p := by
  rw [calculateStats_percentiles rs t hne p hp]
  simp [floorRankSelect, sortedLatencies, List.length_map]

/-- Witness for `C1_floor_rank` at a concrete one-element sink. -/
theorem C1_floor_rank_witness :
    (calculateStats [⟨200, 7, 0, none⟩] 10).percentiles 50 =
      floorRankSelect (([⟨200, 7, 0, none⟩] : List Result).map (·.responseTime)) 50 :=
  C1_floor_rank [⟨200, 7, 0, none⟩] 10 (by simp) 50 (by decide)

/-- Spec claim C8: the four reported percentiles are monotone,
`p50 ≤ p90 ≤ p95 ≤ p99`, over the same latency sample. -/
theorem C8_percentiles_monotone (rs : List Result) (t : Nat) (hne : rs ≠ []) :
    (calculateStats rs t).percentiles 50 ≤ (calculateStats rs t).percentiles 90 ∧
    (calculateStats rs t).percentiles 90 ≤ (calculateStats rs t).percentiles 95 ∧
    (calculateStats rs t).percentiles 95 ≤ (calculateStats rs t).percentiles 99 := by
  have h0 : 0 < rs.length := List.length_pos.2 hne
  have hlen : (sortedLatencies rs).length = rs.length := by
    rw [sortedLatencies, length_sortLatencies, List.length_map]
  have hsorted := sorted_sortLatencies (rs.map (·.responseTime))
  have h99 : percIndex rs.length 99 < (sortedLatencies rs).length := by
    rw [hlen]; exact percIndex_lt rs.length 99 h0 (by omega)
  have mono : ∀ p q : Nat, p ≤ q →
      percIndex rs.length p ≤ percIndex rs.length q := fun p q hpq =>
    Nat.div_le_div_right (Nat.mul_le_mul_left rs.length hpq)
  have key : ∀ p q : Nat, p ∈ ([50, 90, 95, 99] : List Nat) →
      q ∈ ([50, 90, 95, 99] : List Nat) → p ≤ q →
      (calculateStats rs t).percentiles p ≤ (calculateStats rs t).percentiles q := by
    intro p q hp hq hpq
    rw [calculateStats_percentiles rs t hne p hp, calculateStats_percentiles rs t hne q hq]
    have hq99 : percIndex rs.length q ≤ percIndex rs.length 99 := by
      apply mono
      fin_cases hq <;> omega
    exact sorted_getD_mono (sortedLatencies rs) hsorted _ _ (mono p q hpq)
      (Nat.lt_of_le_of_lt hq99 h99)
  exact ⟨key 50 90 (by decide) (by decide) (by omega),
    key 90 95 (by decide) (by decide) (by omega),
    key 95 99 (by decide) (by decide) (by omega)⟩

/-- Witness for `C8_percentiles_monotone` at a concrete three-element sink. -/
theorem C8_percentiles_monotone_witness :
    (calculateStats [⟨200, 9, 0, none⟩, ⟨200, 4, 0, none⟩, ⟨200, 6, 0, none⟩] 50).percentiles 50 ≤
      (calculateStats [⟨200, 9, 0, none⟩, ⟨200, 4, 0, none⟩, ⟨200, 6, 0, none⟩] 50).percentiles 90 ∧
    (calculateStats [⟨200, 9, 0, none⟩, ⟨200, 4, 0, none⟩, ⟨200, 6, 0, none⟩] 50).percentiles 90 ≤
      (calculateStats [⟨200, 9, 0, none⟩, ⟨200, 4, 0, none⟩, ⟨200, 6, 0, none⟩] 50).percentiles 95 ∧
    (calculateStats [⟨200, 9, 0, none⟩, ⟨200, 4, 0, none⟩, ⟨200, 6, 0, none⟩] 50).percentiles 95 ≤
      (calculateStats [⟨200, 9, 0, none⟩, ⟨200, 4, 0, none⟩, ⟨200, 6, 0, none⟩] 50).percentiles 99 :=
  C8_percentiles_monotone [⟨200, 9, 0, none⟩, ⟨200, 4, 0, none⟩, ⟨200, 6, 0, none⟩] 50 (by simp)

/-- Spec claim C10: for a non-empty sink, every percentile index
`len*p/100` used by `calculateStats` (p ∈ {50, 90, 95, 99}) is strictly
below the length of the sorted latency slice, so the selection never
indexes out of range. -/
theorem C10_percentile_index_in_bounds (rs : List Result) (hne : rs ≠ []) :
    ∀ p ∈ ([50, 90, 95, 99] : List Nat),
      percIndex (sortedLatencies rs).length p < (sortedLatencies rs).length := by
  have h0 : 0 < (sortedLatencies rs).length := by
    rw [sortedLatencies, length_sortLatencies, List.length_map]
    exact List.length_pos.2 hne
  intro p hp
  apply percIndex_lt _ _ h0
  fin_cases hp <;> omega

/-- Witness for `C10_percentile_index_in_bounds` at a concrete sink and
percentile. -/
theorem C10_percentile_index_in_bounds_witness :
    percIndex (sortedLatencies [⟨200, 3, 0, none⟩]).length 99 <
      (sortedLatencies [⟨200, 3, 0, none⟩]).length :=
  C10_percentile_index_in_bounds [⟨200, 3, 0, none⟩] (by simp) 99 (by decide)

/-- Spec claim C7: at no point during a run are more than `C` permits
outstanding; a task holds its token from before its request starts until
its deferred release after completion, and every reachable interleaving
keeps the outstanding count at most `C`. -/
theorem C7_concurrency_bound (C : Nat) (outcomes : List Result) (s : DispatchState)
    (h : DispatchReachable C (initState outcomes) s) : heldPermits s ≤ C := by
  induction h with
  | refl => simp [initState, heldPermits]
  | tail _ hstep ih =>
    cases hstep with
    | launch r rest hto hlt =>
      simp only [heldPermits] at hlt ⊢
      simp only [List.length_append, List.length_cons, List.length_nil]
      omega
    | finish r hr =>
      have herase := List.length_erase_of_mem hr
      have hpos := List.length_pos.2 (List.ne_nil_of_mem hr)
      simp only [heldPermits] at ih ⊢
      simp only [herase]
      omega
    | release hrel =>
      simp only [heldPermits] at ih ⊢
      omega

/-- Witness for `C7_concurrency_bound`: the bound holds in the initial
state of a two-request run with `C = 1`. -/
theorem C7_concurrency_bound_witness :
    heldPermits (initState [⟨200, 1, 0, none⟩, ⟨200, 2, 0, none⟩]) ≤ 1 :=
  C7_concurrency_bound 1 [⟨200, 1, 0, none⟩, ⟨200, 2, 0, none⟩] _ Relation.ReflTransGen.refl

/-- Conservation: tasks are only ever moved from `toLaunch` through
`running` into the sink, one at a time. -/
theorem dispatch_conservation (C : Nat) (outcomes : List Result) (s : DispatchState)
    (h : DispatchReachable C (initState outcomes) s) :
    s.toLaunch.length + s.running.length + s.sink.length = outcomes.length := by
  induction h with
  | refl => simp [initState]
  | tail _ hstep ih =>
    cases hstep with
    | launch r rest hto hlt =>
      rw [hto] at ih
      simp only [List.length_append, List.length_cons] at ih ⊢
      simp at ih ⊢
      omega
    | finish r hr =>
      have herase := List.length_erase_of_mem hr
      have hpos := List.length_pos.2 (List.ne_nil_of_mem hr)
      simp only [List.length_append, List.length_cons, List.length_nil, herase] at ih ⊢
      omega
    | release hrel => simpa using ih

/-- Spec claim C4: when a run completes, the result sink holds exactly one
Result per configured request, and the final Stats satisfies
`SuccessfulReqs + FailedReqs = TotalRequests = N`. -/
theorem C4_sink_complete (C : Nat) (outcomes : List Result) (s : DispatchState)
    (t : Nat) (hreach : DispatchReachable C (initState outcomes) s)
    (hdone : RunFinished s) :
    s.sink.length = outcomes.length ∧
    (calculateStats s.sink t).totalRequests = outcomes.length ∧
    (calculateStats s.sink t).successfulReqs + (calculateStats s.sink t).failedReqs =
      outcomes.length := by
  obtain ⟨h1, h2, _⟩ := hdone
  have hcons := dispatch_conservation C outcomes s hreach
  rw [h1, h2] at hcons
  simp at hcons
  refine ⟨hcons, ?_, ?_⟩
  · simpa [calculateStats] using hcons
  · have hsucc : (calculateStats s.sink t).successfulReqs =
        s.sink.countP (fun r => r.error.isNone) := by
      simp [calculateStats, foldl_statsStep_successful]
    have hfail : (calculateStats s.sink t).failedReqs =
        s.sink.countP (fun r => r.error.isSome) := by
      simp [calculateStats, foldl_statsStep_failed]
    rw [hsucc, hfail, ← hcons]
    have hlen := List.length_eq_countP_add_countP (p := fun r : Result => r.error.isNone)
      (l := s.sink)
    have hcong : s.sink.countP (fun r => decide ¬(r.error.isNone = true)) =
        s.sink.countP (fun r => r.error.isSome) := by
      apply List.countP_congr
      intro r _
      rcases h : r.error <;> simp
    rw [hcong] at hlen
    omega

/-- Witness for `C4_sink_complete`: a complete one-request run at `C = 1`,
with the interleaving launch → finish → release spelled out. -/
theorem C4_sink_complete_witness :
    (⟨[], [], 0, [⟨200, 3, 4, none⟩], 1⟩ : DispatchState).sink.length = 1 ∧
    (calculateStats (⟨[], [], 0, [⟨200, 3, 4, none⟩], 1⟩ : DispatchState).sink
        5).totalRequests = 1 ∧
    (calculateStats (⟨[], [], 0, [⟨200, 3, 4, none⟩], 1⟩ : DispatchState).sink
        5).successfulReqs +
      (calculateStats (⟨[], [], 0, [⟨200, 3, 4, none⟩], 1⟩ : DispatchState).sink
        5).failedReqs = 1 :=
  C4_sink_complete 1 [⟨200, 3, 4, none⟩] _ 5
    (by
      apply Relation.ReflTransGen.head
        (DispatchStep.launch _ ⟨200, 3, 4, none⟩ [] rfl (by decide))
      apply Relation.ReflTransGen.head
        (DispatchStep.finish _ ⟨200, 3, 4, none⟩ (by decide))
      apply Relation.ReflTransGen.head
        (DispatchStep.release _ (by decide))
      exact Relation.ReflTransGen.refl)
    ⟨rfl, rfl, rfl⟩

/-- Spec claim C6 evaluated on the code: with `Concurrent = 0` the engine
performs no validation at all (`NewLoadTester`, main.go:132-153, has no
error path); `RunWithTUI` builds a zero-capacity semaphore, so no dispatcher
action is ever enabled — every reachable state is the initial one, the sink
stays empty, no error is surfaced, and for `N ≥ 1` the run never finishes. -/
theorem C6_zero_concurrency_deadlock (outcomes : List Result) (s : DispatchState)
    (h : DispatchReachable 0 (initState outcomes) s) :
    s = initState outcomes ∧ s.sink = [] ∧ (outcomes ≠ [] → ¬ RunFinished s) := by
  induction h with
  | refl => exact ⟨rfl, rfl, fun hne hf => hne hf.1⟩
  | tail hprev hstep ih =>
    obtain ⟨heq, -, -⟩ := ih
    subst heq
    cases hstep with
    | launch r rest hto hlt => exact absurd hlt (Nat.not_lt_zero _)
    | finish r hr => simp [initState] at hr
    | release hrel => simp [initState] at hrel

/-- Witness for `C6_zero_concurrency_deadlock` at a one-request run. -/
theorem C6_zero_concurrency_deadlock_witness :
    initState [⟨200, 1, 0, none⟩] = initState [⟨200, 1, 0, none⟩] ∧
    (initState [⟨200, 1, 0, none⟩]).sink = [] ∧
    (([⟨200, 1, 0, none⟩] : List Result) ≠ [] →
      ¬ RunFinished (initState [⟨200, 1, 0, none⟩])) :=
  C6_zero_concurrency_deadlock [⟨200, 1, 0, none⟩] _ Relation.ReflTransGen.refl

/-- C9 counterexample: when the body read fails after 5 ns on a response
whose construction and exchange took 1 + 2 ns, the code records latency 3
(taken before the read, main.go:180), not the 8 ns elapsed at the point of
failure: the latency is not "measured up to the point of failure". -/
theorem C9_latency_counterexample :
    (makeRequest (.bodyReadErr 200 1 2 5)).responseTime = 3 ∧
    elapsedAtFailure (.bodyReadErr 200 1 2 5) = 8 ∧
    (makeRequest (.bodyReadErr 200 1 2 5)).responseTime ≠
      elapsedAtFailure (.bodyReadErr 200 1 2 5) :=
  ⟨rfl, rfl, by decide⟩

/-- Spec claim C9, corrected: on every failing path the Result carries a
non-nil error and status code 0 (or the real status code when headers
arrived but the body read failed), and its latency is the elapsed time up
to the end of the HTTP exchange — i.e. up to the point of failure for
construction and send failures, but excluding the body-read time for
body-read failures. -/
theorem C9_failure_result (o : ReqOutcome) (h : o.isFailure = true) :
    (makeRequest o).error.isSome = true ∧
    (makeRequest o).statusCode = failStatus o ∧
    (makeRequest o).responseTime = elapsedThroughSend o := by
  cases o with
  | constructErr t1 => exact ⟨rfl, rfl, rfl⟩
  | sendErr t1 t2 => exact ⟨rfl, rfl, rfl⟩
  | bodyReadErr st t1 t2 t3 => exact ⟨rfl, rfl, rfl⟩
  | success st sz t1 t2 t3 => simp [ReqOutcome.isFailure] at h

/-- Witness for `C9_failure_result` at a concrete connection failure. -/
theorem C9_failure_result_witness :
    (makeRequest (.sendErr 1 2)).error.isSome = true ∧
    (makeRequest (.sendErr 1 2)).statusCode = failStatus (.sendErr 1 2) ∧
    (makeRequest (.sendErr 1 2)).responseTime = elapsedThroughSend (.sendErr 1 2) :=
  C9_failure_result (.sendErr 1 2) rfl
